import Mathlib

/-!
Verification of the ScholarStack RAG pipeline.

This file gives a shallow embedding of the pipeline code (chunker,
embedding provider, vector store / retriever, citation extraction,
and the upload / chat routes) and proves or refutes the frozen
claims about it.  Text is modelled as `List Char` (JS strings over
the ASCII fragment relevant to the claims), JS numbers appearing as
array indices as `Int`, and embedding-vector entries as exact
rationals.  Fallible code returns `Except`; the two network-backed
operations (query embedding, chat completion) are passed in as
oracle parameters, since their results come from outside the code.
-/

namespace ScholarStack

/-- Whitespace class of the JS regex `\s` restricted to the ASCII
characters that occur in the claims (space, tab, newline, carriage
return, vertical tab, form feed). -/
def jsIsSpace (c : Char) : Bool :=
  c == ' ' || c == '\t' || c == '\n' || c == '\r' || c == '\x0b' || c == '\x0c'

/-- Replace every maximal run of characters satisfying `p` by the single
character `rep`, as the JS `replace(/p+/g, rep)` does.  The flag records
whether the previous character was part of a run. -/
def collapseAux (p : Char → Bool) (rep : Char) : Bool → List Char → List Char
  | _, [] => []
  | inRun, c :: cs =>
    if p c then
      if inRun then collapseAux p rep true cs
      else rep :: collapseAux p rep true cs
    else c :: collapseAux p rep false cs

/-- The JS `text.replace(/run-of-p/g, rep)` collapse. -/
def collapseRuns (p : Char → Bool) (rep : Char) (l : List Char) : List Char :=
  collapseAux p rep false l

/-- The JS `String.prototype.trim`: strip leading and trailing whitespace. -/
def trimList (l : List Char) : List Char :=
  ((l.dropWhile jsIsSpace).reverse.dropWhile jsIsSpace).reverse

/-- Embeds the normalization in `chunkText`:
`text.replace(/\s+/g, ' ').replace(/\n+/g, '\n').trim()`. -/
def cleanText (s : String) : List Char :=
  trimList (collapseRuns (fun c => c == '\n') '\n' (collapseRuns jsIsSpace ' ' s.data))

/-- Scan for `str.lastIndexOf`: `i` is the index of the list head within
the whole string; an occurrence found further right (still `≤ fromIdx`)
wins over an earlier one. -/
def lastIndexOfAux (t : Char) (fromIdx : Int) : List Char → Int → Int
  | [], _ => -1
  | c :: cs, i =>
    let rest := lastIndexOfAux t fromIdx cs (i + 1)
    if rest ≠ -1 then rest
    else if i ≤ fromIdx && c == t then i else -1

/-- The JS `str.lastIndexOf(t, fromIdx)` for a one-character search
string: the largest index `i ≤ fromIdx` with `cs[i] = t`, and `-1` if
there is none. -/
def lastIndexOfChar (cs : List Char) (t : Char) (fromIdx : Int) : Int :=
  lastIndexOfAux t fromIdx cs 0

/-- The JS `s.startsWith(pre)`. -/
def strStartsWith (s pre : String) : Bool :=
  pre.data.isPrefixOf s.data

/-- The JS `str.substring(a, b)`: both arguments are clamped to
`[0, length]` and swapped when out of order. -/
def jsSubstring (cs : List Char) (a b : Int) : List Char :=
  let n : Int := cs.length
  let a2 := min (max a 0) n
  let b2 := min (max b 0) n
  (cs.take (max a2 b2).toNat).drop (min a2 b2).toNat

/-- One-iteration-per-fuel-unit embedding of the `while (currentIndex <
cleanedText.length)` loop of `chunkText`.  Each iteration computes the
window end, moves it back to a sentence terminator or paragraph break
found beyond the window midpoint (the midpoint test `x > currentIndex +
maxChunkSize / 2` over JS reals is written `2 * x > 2 * currentIndex +
maxChunkSize`, which is equivalent over the integers), pushes the
trimmed chunk when non-empty, and restarts `overlap` characters before
the cut.  `none` means the loop did not finish within `fuel` iterations;
the loop of the source has no other exit. -/
def chunkTextGo (cleaned : List Char) (maxCS overlap : Int) :
    Nat → Int → List (List Char) → Option (List (List Char))
  | 0, _, _ => none
  | fuel + 1, currentIndex, acc =>
    let L : Int := cleaned.length
    if currentIndex < L then
      let endIdx0 := min (currentIndex + maxCS) L
      let endIdx :=
        if endIdx0 < L then
          let sentenceEnd := lastIndexOfChar cleaned '.' endIdx0
          let questionEnd := lastIndexOfChar cleaned '?' endIdx0
          let exclamationEnd := lastIndexOfChar cleaned '!' endIdx0
          let bestBreak := max sentenceEnd (max questionEnd exclamationEnd)
          if 2 * bestBreak > 2 * currentIndex + maxCS then bestBreak + 1
          else
            let paragraphBreak := lastIndexOfChar cleaned '\n' endIdx0
            if 2 * paragraphBreak > 2 * currentIndex + maxCS then paragraphBreak + 1
            else endIdx0
        else endIdx0
      let chunk := trimList (jsSubstring cleaned currentIndex endIdx)
      let acc2 := if chunk.length > 0 then chunk :: acc else acc
      chunkTextGo cleaned maxCS overlap fuel (endIdx - overlap) acc2
    else some acc.reverse

/-- Embeds `chunkText(text, maxChunkSize, overlap)` from the chunker
module (defaults in the source: `maxChunkSize = 1000`, `overlap = 100`).
The result is `some chunks` when the loop finishes within `fuel`
iterations and `none` otherwise. -/
def chunkText (fuel : Nat) (text : String) (maxChunkSize overlap : Int) :
    Option (List String) :=
  let cleanedText := cleanText text
  if (cleanedText.length : Int) ≤ maxChunkSize then some [⟨cleanedText⟩]
  else (chunkTextGo cleanedText maxChunkSize overlap fuel 0 []).map (·.map (⟨·⟩))

/-! Embedding provider (`embeddings.ts`). -/

/-- Value produced by the final IEEE division `dotProduct /
(Math.sqrt(normA) * Math.sqrt(normB))` in `cosineSimilarity`.  A
`fin dot normA normB` denotes the real number `dot / (√normA · √normB)`
with a non-zero denominator; the other constructors are the IEEE
special values that JS produces when the denominator is zero
(`0 / 0 = NaN`, `x / 0 = ±Infinity` for `x ≠ 0`).  Over the
non-negative sums of squares, `√normA · √normB = 0` exactly when
`normA * normB = 0`, which is how the zero test is written below. -/
inductive CosValue where
  | nan : CosValue
  | posInf : CosValue
  | negInf : CosValue
  | fin (dot normA normB : ℚ) : CosValue
deriving DecidableEq

/-- Embeds `cosineSimilarity(a, b)`: the length guard throws, then one
loop accumulates `dotProduct`, `normA` and `normB`, and the function
returns the quotient described at `CosValue`.  Entries are modelled as
exact rationals; on the all-zero inputs the claims are about, IEEE
arithmetic is exact, so the model agrees with the JS floats there.
`cosAccStep` is one iteration of the accumulation loop, over the
`(dotProduct, normA, normB)` accumulator triple. -/
def cosAccStep (acc : ℚ × ℚ × ℚ) (p : ℚ × ℚ) : ℚ × ℚ × ℚ :=
  (acc.1 + p.1 * p.2, acc.2.1 + p.1 * p.1, acc.2.2 + p.2 * p.2)

def cosineSimilarity (a b : List ℚ) : Except String CosValue :=
  if a.length ≠ b.length then .error "Vectors must have the same length"
  else
    let s := (a.zip b).foldl cosAccStep ((0 : ℚ), (0 : ℚ), (0 : ℚ))
    let dotProduct := s.1
    let normA := s.2.1
    let normB := s.2.2
    if normA * normB = 0 then
      if dotProduct = 0 then .ok .nan
      else if 0 < dotProduct then .ok .posInf
      else .ok .negInf
    else .ok (.fin dotProduct normA normB)

/-- Sequential per-item embedding loop shared by both backends of
`generateEmbeddings`; the first failing item aborts the loop with the
backend's error. -/
def embedLoop (embedOne : String → Except String (List ℚ)) :
    List String → Except String (List (List ℚ))
  | [] => .ok []
  | c :: cs =>
    match embedOne c with
    | .error e => .error e
    | .ok v =>
      match embedLoop embedOne cs with
      | .error e => .error e
      | .ok vs => .ok (v :: vs)

/-- Embeds `generateEmbeddings(chunks, apiKey)`.  A falsy key (absent or
the empty string) returns an empty vector per chunk without calling any
backend.  Otherwise the `sk-` prefix of the key selects the OpenAI
backend and any other key the Gemini backend; both process the chunks
one at a time.  The two backends are oracle parameters (network calls);
a backend failure is wrapped in the `Failed to generate embeddings`
error exactly as the surrounding try/catch does. -/
def generateEmbeddings (chunks : List String) (apiKey : Option String)
    (openaiEmbed geminiEmbed : String → Except String (List ℚ)) :
    Except String (List (List ℚ)) :=
  if apiKey.getD "" = "" then .ok (chunks.map fun _ => ([] : List ℚ))
  else
    let key := apiKey.getD ""
    let isOpenAI := strStartsWith key "sk-"
    let embedOne := fun c => if isOpenAI then openaiEmbed c else geminiEmbed c
    match embedLoop embedOne chunks with
    | .error e => .error ("Failed to generate embeddings: " ++ e)
    | .ok vs => .ok vs

/-! Vector store (`vectorStore.ts`): chunk loading, keyword fallback and
vector ranking. -/

/-- Stored value of the nullable `embedding` column of a chunk row,
after the `JSON.parse(chunk.embedding || '[]')` step is applied to it:
`null` parses to the empty vector, a malformed JSON string throws, and
a well-formed one yields its vector. -/
inductive EmbStore where
  | null : EmbStore
  | malformed : EmbStore
  | vec (v : List ℚ) : EmbStore
deriving DecidableEq

/-- Result of `JSON.parse(chunk.embedding || '[]')`; `.error` models the
thrown exception. -/
def parseEmb : EmbStore → Except Unit (List ℚ)
  | .null => .ok []
  | .malformed => .error ()
  | .vec v => .ok v

/-- A chunk row as loaded from the store. -/
structure ChunkRec where
  id : String
  documentId : String
  content : String
  embedding : EmbStore
deriving DecidableEq

/-- A document row together with its chunk rows. -/
structure DocumentRec where
  id : String
  filename : String
  chunks : List ChunkRec
deriving DecidableEq

/-- Float value of a chunk's score as the source computes it.  Keyword
scores are finite match counts (`num`), but a vector-path score is the
JS float `cosineSimilarity` returns, which is NaN when the division's
numerator and denominator are both zero (an all-zero stored embedding)
and ±Infinity on the other zero-denominator outcomes; the finite float
value is carried as an exact rational. -/
inductive JsNum where
  | nan : JsNum
  | posInf : JsNum
  | negInf : JsNum
  | num (q : ℚ) : JsNum
deriving DecidableEq

/-- Sign of a comparator result as `Array.prototype.sort` consumes it:
ECMA SortCompare maps a NaN comparator value to `+0`, so NaN is `zero`
here. -/
inductive CmpSign where
  | neg : CmpSign
  | zero : CmpSign
  | pos : CmpSign
deriving DecidableEq

/-- Sign of the JS float `b - a` for the sort comparator
`(a, b) => b.score - a.score`, with the ECMA SortCompare NaN-to-`+0`
rule applied: any NaN operand, and the indeterminate `∞ - ∞` forms,
yield `zero`; otherwise the sign of the extended-real difference (for
finite floats the sign of the rounded difference equals the exact
sign, since distinct doubles never subtract to zero). -/
def cmpResultDesc (a b : JsNum) : CmpSign :=
  match a, b with
  | .nan, _ => .zero
  | _, .nan => .zero
  | .posInf, .posInf => .zero
  | .negInf, .negInf => .zero
  | .posInf, .negInf => .neg
  | .posInf, .num _ => .neg
  | .negInf, .posInf => .pos
  | .negInf, .num _ => .pos
  | .num _, .posInf => .pos
  | .num _, .negInf => .neg
  | .num x, .num y => if x < y then .pos else if y < x then .neg else .zero

/-- IEEE `x <= y` over the modelled float values: every comparison
involving NaN is false. -/
def jsLe : JsNum → JsNum → Bool
  | .nan, _ => false
  | _, .nan => false
  | .negInf, _ => true
  | .posInf, .posInf => true
  | .posInf, _ => false
  | .num _, .posInf => true
  | .num _, .negInf => false
  | .num x, .num y => decide (x ≤ y)

/-- IEEE `x > 0` over the modelled float values (`NaN > 0` is false). -/
def jsGtZero : JsNum → Bool
  | .nan => false
  | .posInf => true
  | .negInf => false
  | .num q => decide (0 < q)

/-- The `ChunkWithScore` interface of the vector store. -/
structure ChunkWithScore where
  id : String
  documentId : String
  content : String
  score : JsNum
deriving DecidableEq

/-- Bool rendering of the contract phrase `scores are non-increasing
from first to last` under IEEE comparison semantics (a comparison
involving NaN is false). -/
def scoresNonIncreasing : List ChunkWithScore → Bool
  | [] => true
  | [_] => true
  | a :: b :: t => jsLe b.score a.score && scoresNonIncreasing (b :: t)

/-- The filter `chunksWithEmbeddings`: a chunk participates in vector
ranking when its stored embedding parses and is non-empty. -/
def hasEmbedding (c : ChunkRec) : Bool :=
  match parseEmb c.embedding with
  | .ok v => decide (0 < v.length)
  | .error _ => false

/-- ASCII model of `String.prototype.toLowerCase`. -/
def listToLower (l : List Char) : List Char := l.map Char.toLower

/-- The JS `hay.includes(needle)` substring test. -/
def strContains (hay needle : List Char) : Bool :=
  hay.tails.any fun t => needle.isPrefixOf t

/-- Words of `query.toLowerCase().split(/\s+/)` longer than 2
characters.  The splitter drops the separators and empty pieces; the
only piece JS would add beyond these is a leading empty string, which
the length filter removes in both readings. -/
def splitWsAux : List Char → List Char → List (List Char)
  | cur, [] => if cur.length > 0 then [cur.reverse] else []
  | cur, c :: cs =>
    if jsIsSpace c then
      if cur.length > 0 then cur.reverse :: splitWsAux [] cs else splitWsAux [] cs
    else splitWsAux (c :: cur) cs

/-- The `queryWords` list of `keywordSearch`. -/
def queryWords (query : String) : List (List Char) :=
  (splitWsAux [] (listToLower query.data)).filter fun w => decide (2 < w.length)

/-- The `matchCount` loop of `keywordSearch`: how many query words the
lower-cased content contains as a substring. -/
def keywordScore (queryWs : List (List Char)) (content : String) : Nat :=
  queryWs.countP fun w => strContains (listToLower content.data) w

/-- Model of `scores.sort((a, b) => b.score - a.score)` under the ECMA
semantics: a stable comparison sort in which element `a` stays before
`b` exactly when the comparator value `b.score - a.score` is not
positive — with SortCompare's NaN-to-`+0` rule, so a NaN score compares
as equal to everything and keeps its position.  Insertion sort realizes
this; the engines' stable sorts agree with it wherever the claims look
(and everywhere when the comparator is consistent, i.e. no NaN). -/
def sortByScoreDesc (l : List ChunkWithScore) : List ChunkWithScore :=
  List.insertionSort (fun a b => cmpResultDesc a.score b.score ≠ CmpSign.pos) l

/-- Embeds `keywordSearch(chunks, query, topK)`: score every chunk by
`matchCount`, sort descending, drop zero scores, truncate to `topK`. -/
def keywordSearch (chunks : List ChunkRec) (query : String) (topK : Nat) :
    List ChunkWithScore :=
  let queryWs := queryWords query
  let scores := chunks.map fun c =>
    ChunkWithScore.mk c.id c.documentId c.content
      (JsNum.num (keywordScore queryWs c.content : ℚ))
  (((sortByScoreDesc scores).filter fun s => jsGtZero s.score).take topK)

/-- Score of one embedded chunk inside the `try { ... } catch { score: 0 }`
of the vector path: a chunk whose stored embedding fails to re-parse, or
makes `cosineSimilarity` throw its length-mismatch error, scores 0;
otherwise the score is the float `cosineSimilarity` value — NaN and
±Infinity come from the `cosineSimilarity` model itself, and the finite
value (irrational in general) is abstracted by the oracle `sim`. -/
def chunkScore (sim : List ℚ → List ℚ → ℚ) (qEmb : List ℚ) (c : ChunkRec) : JsNum :=
  match parseEmb c.embedding with
  | .error _ => .num 0
  | .ok v =>
    match cosineSimilarity qEmb v with
    | .error _ => .num 0
    | .ok .nan => .nan
    | .ok .posInf => .posInf
    | .ok .negInf => .negInf
    | .ok (.fin _ _ _) => .num (sim qEmb v)

/-- Embeds `findRelevantChunks(projectId, query, topK, apiKey)`.  The
project's documents (the `prisma.document.findMany` result) and the
query-embedding network call are passed in: `qEmbResult` is what
`generateQueryEmbedding` would return or throw.  An absent or empty
API key, or the absence of any embedded chunk, selects the keyword
fallback; otherwise every embedded chunk is ranked by similarity to
the query embedding and the list is sorted descending and truncated. -/
def findRelevantChunks (docs : List DocumentRec) (query : String) (topK : Nat)
    (apiKey : Option String) (qEmbResult : Except String (List ℚ))
    (sim : List ℚ → List ℚ → ℚ) : Except String (List ChunkWithScore) :=
  if docs.length = 0 then .ok []
  else
    let allChunks := docs.flatMap (·.chunks)
    let chunksWithEmbeddings := allChunks.filter hasEmbedding
    if apiKey.getD "" = "" then .ok (keywordSearch allChunks query topK)
    else if chunksWithEmbeddings.length = 0 then .ok (keywordSearch allChunks query topK)
    else
      match qEmbResult with
      | .error e => .error e
      | .ok qEmb =>
        let scores := chunksWithEmbeddings.map fun c =>
          ChunkWithScore.mk c.id c.documentId c.content (chunkScore sim qEmb c)
        .ok ((sortByScoreDesc scores).take topK)

/-! Answer synthesizer (`ragService.ts`): prompt assembly, backend call
plan, citation extraction. -/

/-- A chat message as sent to the completion backend. -/
structure ChatMessageRec where
  role : String
  content : String
deriving DecidableEq

/-- The `Citation` interface. -/
structure Citation where
  chunkId : String
  documentId : String
  documentName : String
  text : String
deriving DecidableEq

/-- The citation body built inside `extractCitations`: document name
looked up in the id-to-filename map with the `Unknown Document`
default, and the chunk text truncated to 200 characters with an
ellipsis marker exactly when it was longer. -/
def mkCitation (docMap : String → Option String) (c : ChunkWithScore) : Citation :=
  { chunkId := c.id
    documentId := c.documentId
    documentName := (docMap c.documentId).getD "Unknown Document"
    text :=
      if 200 < c.content.data.length then (⟨c.content.data.take 200⟩ : String) ++ "..."
      else c.content }

/-- Digit run value, as `parseInt` reads the digits captured by
`(\d+)`. -/
def digitsVal (ds : List Char) : Nat :=
  ds.foldl (fun a c => 10 * a + (c.toNat - '0'.toNat)) 0

/-- Attempt to match the regex `\[Source (\d+)\]` at the head of the
character list; on success return the captured number and the
characters following the match. -/
def parseMarker (cs : List Char) : Option (Nat × List Char) :=
  if "[Source ".data.isPrefixOf cs then
    let rest := cs.drop 8
    let ds := rest.takeWhile Char.isDigit
    if ds.length = 0 then none
    else
      match rest.drop ds.length with
      | ']' :: rest2 => some (digitsVal ds, rest2)
      | _ => none
  else none

/-- Fuel-indexed scan for every (non-overlapping, leftmost-first)
match of `\[Source (\d+)\]`, as the `while ((match =
sourceRegex.exec(response)) !== null)` loop visits them.  Each step
consumes at least one character, so fuel equal to the length of the
text (what `scanSources` supplies) always completes the scan. -/
def scanAux : Nat → List Char → List Nat
  | 0, _ => []
  | fuel + 1, cs =>
    match parseMarker cs with
    | some (n, rest) => n :: scanAux fuel rest
    | none =>
      match cs with
      | [] => []
      | _ :: t => scanAux fuel t

/-- All `[Source N]` capture values in the text, in order. -/
def scanSources (cs : List Char) : List Nat := scanAux cs.length cs

/-- The match loop of `extractCitations`: each captured `N` is mapped to
the 0-based `sourceIndex = N - 1`, out-of-range indices are skipped, and
a chunk already in the `seenChunks` set adds no second citation. -/
def extractCitationsGo (chunks : List ChunkWithScore) (docMap : String → Option String) :
    List Nat → List String → List Citation
  | [], _ => []
  | n :: ms, seen =>
    let si : Int := (n : Int) - 1
    if h : 0 ≤ si ∧ si < (chunks.length : Int) then
      let chunk := chunks.get ⟨si.toNat, by omega⟩
      if chunk.id ∈ seen then extractCitationsGo chunks docMap ms seen
      else mkCitation docMap chunk :: extractCitationsGo chunks docMap ms (chunk.id :: seen)
    else extractCitationsGo chunks docMap ms seen

/-- Embeds `extractCitations(response, chunks, docMap)`. -/
def extractCitations (response : String) (chunks : List ChunkWithScore)
    (docMap : String → Option String) : List Citation :=
  extractCitationsGo chunks docMap (scanSources response.data) []

/-- Modelled from the spec: the citation set §4.5 describes — the
in-range `[Source N]` markers of the answer, each mapped to the Nth
retrieved chunk (1-indexed), deduplicated by chunk identity keeping the
first occurrence.  `seen` carries the identities already emitted. -/
def dedupById (seen : List String) : List ChunkWithScore → List ChunkWithScore
  | [] => []
  | c :: rest =>
    if c.id ∈ seen then dedupById seen rest
    else c :: dedupById (c.id :: seen) rest

/-- Modelled from the spec: chunks cited by the answer, one per distinct
referenced chunk, in order of first occurrence, out-of-range markers
ignored. -/
def citedChunksSpec (response : String) (chunks : List ChunkWithScore) :
    List ChunkWithScore :=
  dedupById []
    ((scanSources response.data).filterMap fun n =>
      if 1 ≤ n ∧ n ≤ chunks.length then chunks[n - 1]? else none)

/-- Chat-completion backend. -/
inductive ChatBackend where
  | openai : ChatBackend
  | gemini : ChatBackend
deriving DecidableEq

/-- The call `generateChatResponse` issues to the completion API:
which backend client it constructs, which model name it requests, and
the message list it sends. -/
structure ChatCall where
  backend : ChatBackend
  model : String
  messages : List ChatMessageRec
deriving DecidableEq

/-- The `context` block: every retrieved chunk prefixed with its
1-based source index. -/
def buildContext (chunks : List ChunkWithScore) : String :=
  String.intercalate "\n\n"
    (chunks.enum.map fun p => "[Source " ++ toString (p.1 + 1) ++ "] " ++ p.2.content)

/-- The fixed instruction block of the system prompt, followed by the
context assembled from the retrieved chunks. -/
def systemPrompt (chunks : List ChunkWithScore) : String :=
  "You are a helpful research assistant for ScholarStack. Your role is to help researchers understand and synthesize information from their uploaded documents.\n\nIMPORTANT INSTRUCTIONS:\n1. Answer questions using ONLY the information provided in the context below.\n2. If the context doesn't contain enough information to answer the question, say so clearly.\n3. ALWAYS cite your sources using [Source X] notation when referencing information.\n4. When citing, try to be specific about which source supports each claim.\n5. Do not make up or hallucinate information that isn't in the context.\n6. Be concise but thorough in your explanations.\n\nContext from documents:\n"
    ++ buildContext chunks

/-- Embeds the request `generateChatResponse(query, relevantChunks,
conversationHistory, apiKey)` sends: the function constructs an OpenAI
client from the key unconditionally (`new OpenAI({ apiKey })`) and
requests the literal model `gpt-4o-mini`; its parameter list carries no
model override and no document-name list. -/
def generateChatCall (query : String) (relevantChunks : List ChunkWithScore)
    (conversationHistory : List ChatMessageRec) (apiKey : String) : ChatCall :=
  let _ := apiKey
  { backend := .openai
    model := "gpt-4o-mini"
    messages :=
      ChatMessageRec.mk "system" (systemPrompt relevantChunks)
        :: conversationHistory ++ [ChatMessageRec.mk "user" query] }

/-- Modelled from the spec: the backend dispatch and model choice §4.5
and §6 describe for the answer synthesizer — the backend is chosen by
the same `sk-` key-prefix heuristic as the embedding provider, the
default model name is backend-specific (the defaults the settings page
documents), and a per-request model override replaces the default. -/
def specChatDispatch (apiKey : String) (modelOverride : Option String) :
    ChatBackend × String :=
  let backend := if strStartsWith apiKey "sk-" then ChatBackend.openai else ChatBackend.gemini
  let defaultModel :=
    match backend with
    | .openai => "gpt-4o-mini"
    | .gemini => "gemini-2.5-flash"
  (backend, match modelOverride with
    | some m => if m = "" then defaultModel else m
    | none => defaultModel)

/-! Routes (`documents.ts` upload, `chat.ts` query). -/

/-- Pipeline stages of the ingestion contract. -/
inductive Stage where
  | extractor : Stage
  | chunker : Stage
  | embedder : Stage
  | chunkStore : Stage
deriving DecidableEq

/-- The uploaded file as multer hands it to the route. -/
structure FileRec where
  originalname : String
  path : String
deriving DecidableEq

/-- The document row the upload route creates. -/
structure DocumentRow where
  projectId : String
  filename : String
  filePath : String
  pageCount : Nat
deriving DecidableEq

/-- Outcome of the upload route. -/
inductive UploadOutcome where
  | badRequest (msg : String) : UploadOutcome
  | notFound (msg : String) : UploadOutcome
  | serverError (msg : String) : UploadOutcome
  | created (document : DocumentRow) (storedChunks : List ChunkRec)
      (invoked : List Stage) : UploadOutcome
deriving DecidableEq

/-- Embeds the `POST /upload` route of `documents.ts`: validate the
file and project, run the extractor, create the document row, and
respond 201.  `extractResult` is what `extractPDF` returns or throws.
The route stores no chunks and calls neither `chunkText` nor
`generateEmbeddings` (its own comment reads `skip chunking for now to
keep it simple`), so the created document's stored chunk set is empty
and the invoked stage list contains only the extractor. -/
def uploadRoute (file : Option FileRec) (projectId : Option String)
    (projectExists : Bool) (extractResult : Except String (String × Nat)) :
    UploadOutcome :=
  match file with
  | none => .badRequest "No file uploaded"
  | some f =>
    if projectId.getD "" = "" then .badRequest "Project ID is required"
    else if !projectExists then .notFound "Project not found"
    else
      match extractResult with
      | .error e => .serverError e
      | .ok (_text, pageCount) =>
        .created (DocumentRow.mk (projectId.getD "") f.originalname f.path pageCount)
          [] [Stage.extractor]

/-- The user row fields the chat route reads through the project. -/
structure ProjectRec where
  id : String
  userApiKey : Option String
deriving DecidableEq

/-- One entry of the `sources` preview list of the chat response. -/
structure SourcePreview where
  chunkId : String
  documentId : String
  content : String
deriving DecidableEq

/-- Body of a 200 response of the chat route, together with whether the
answer synthesizer (`generateChatResponse`) was invoked to produce it. -/
structure ChatSuccess where
  response : String
  citations : List Citation
  sources : List SourcePreview
  synthesizerInvoked : Bool
deriving DecidableEq

/-- Outcome of the chat route. -/
inductive ChatOutcome where
  | badRequest (msg : String) : ChatOutcome
  | notFound (msg : String) : ChatOutcome
  | serverError (msg : String) : ChatOutcome
  | ok (body : ChatSuccess) : ChatOutcome
deriving DecidableEq

/-- The canned reply of the chat route when retrieval finds nothing. -/
def cannedNoInfo : String :=
  "I couldn't find any relevant information in your documents to answer this question. Please try uploading more documents or rephrasing your question."

/-- Embeds the `POST /` route of `chat.ts`: validate the request, look
up the project and its user's API key, retrieve the top 20 relevant
chunks, and either answer with the canned no-information message (when
retrieval is empty) or invoke the synthesizer.  `project` is the
database lookup result, `docs` the project's documents, `qEmbResult`
and `sim` the retrieval oracles, and `synth` what
`generateChatResponse` would return or throw. -/
def chatRoute (projectId query : Option String) (project : Option ProjectRec)
    (docs : List DocumentRec) (qEmbResult : Except String (List ℚ))
    (sim : List ℚ → List ℚ → ℚ)
    (synth : Except String (String × List Citation)) : ChatOutcome :=
  if projectId.getD "" = "" ∨ query.getD "" = "" then
    .badRequest "Project ID and query are required"
  else
    match project with
    | none => .notFound "Project not found"
    | some proj =>
      if proj.userApiKey.getD "" = "" then
        .badRequest "Please set your API key in settings"
      else
        match findRelevantChunks docs (query.getD "") 20 proj.userApiKey qEmbResult sim with
        | .error e => .serverError e
        | .ok relevantChunks =>
          if relevantChunks.length = 0 then
            .ok (ChatSuccess.mk cannedNoInfo [] [] false)
          else
            match synth with
            | .error e => .serverError e
            | .ok (resp, cites) =>
              .ok (ChatSuccess.mk resp cites
                (relevantChunks.map fun c =>
                  SourcePreview.mk c.id c.documentId
                    ((⟨c.content.data.take 200⟩ : String) ++ "..."))
                true)

/-! Theorems. -/

theorem cosAcc_fst_zero (l : List (ℚ × ℚ)) :
    ∀ init : ℚ × ℚ × ℚ, (∀ p ∈ l, p.1 = 0) → init.1 = 0 → init.2.1 = 0 →
      (l.foldl cosAccStep init).1 = 0 ∧ (l.foldl cosAccStep init).2.1 = 0 := by
  induction l with
  | nil => exact fun init _ h1 h2 => ⟨h1, h2⟩
  | cons p t ih =>
    intro init hl h1 h2
    simp only [List.foldl_cons]
    have hp : p.1 = 0 := hl p (List.mem_cons_self _ _)
    refine ih _ (fun q hq => hl q (List.mem_cons_of_mem _ hq)) ?_ ?_ <;>
      simp [cosAccStep, hp, h1, h2]

theorem cosAcc_snd_zero (l : List (ℚ × ℚ)) :
    ∀ init : ℚ × ℚ × ℚ, (∀ p ∈ l, p.2 = 0) → init.1 = 0 → init.2.2 = 0 →
      (l.foldl cosAccStep init).1 = 0 ∧ (l.foldl cosAccStep init).2.2 = 0 := by
  induction l with
  | nil => exact fun init _ h1 h2 => ⟨h1, h2⟩
  | cons p t ih =>
    intro init hl h1 h2
    simp only [List.foldl_cons]
    have hp : p.2 = 0 := hl p (List.mem_cons_self _ _)
    refine ih _ (fun q hq => hl q (List.mem_cons_of_mem _ hq)) ?_ ?_ <;>
      simp [cosAccStep, hp, h1, h2]

/-- C10: for equal-length vectors of which either one is all zeros, the
accumulated `normA * normB` is zero, so `cosineSimilarity` divides by
the zero denominator `√normA * √normB` with a zero numerator and
returns the IEEE NaN value — it neither throws nor substitutes a
guarded in-range default. -/
theorem cosineSimilarity_zero_vector_nan (a b : List ℚ)
    (hlen : a.length = b.length)
    (hzero : (∀ x ∈ a, x = 0) ∨ (∀ x ∈ b, x = 0)) :
    cosineSimilarity a b = .ok CosValue.nan := by
  have hab : ¬a.length ≠ b.length := fun h => h hlen
  unfold cosineSimilarity
  rw [if_neg hab]
  obtain hz | hz := hzero
  · have h := cosAcc_fst_zero (a.zip b)
      ((0 : ℚ), (0 : ℚ), (0 : ℚ))
      (fun p hp => hz p.1 (List.of_mem_zip hp).1) rfl rfl
    simp only []
    rw [if_pos (by rw [h.2, zero_mul]), if_pos h.1]
  · have h := cosAcc_snd_zero (a.zip b)
      ((0 : ℚ), (0 : ℚ), (0 : ℚ))
      (fun p hp => hz p.2 (List.of_mem_zip hp).2) rfl rfl
    simp only []
    rw [if_pos (by rw [h.2, mul_zero]), if_pos h.1]

/-- Witness for C10 at the concrete pair `[0, 0]` and `[3, 4]`. -/
theorem cosineSimilarity_zero_vector_nan_witness :
    ([(0 : ℚ), 0].length = [(3 : ℚ), 4].length) ∧
      cosineSimilarity [0, 0] [3, 4] = .ok CosValue.nan :=
  ⟨rfl, cosineSimilarity_zero_vector_nan [0, 0] [3, 4] rfl (Or.inl (by decide))⟩

/-- C5: with no credential, `generateEmbeddings` answers one empty
vector per input text, calling neither backend and raising no error. -/
theorem generateEmbeddings_no_credential (chunks : List String)
    (openaiEmbed geminiEmbed : String → Except String (List ℚ)) :
    generateEmbeddings chunks none openaiEmbed geminiEmbed =
        .ok (chunks.map fun _ => ([] : List ℚ)) ∧
      (chunks.map fun _ => ([] : List ℚ)).length = chunks.length ∧
      ∀ v ∈ chunks.map fun _ => ([] : List ℚ), v = ([] : List ℚ) := by
  refine ⟨rfl, List.length_map _ _, ?_⟩
  intro v hv
  obtain ⟨c, _, rfl⟩ := List.mem_map.mp hv
  rfl

/-- C1 (code divergence): a successful upload — file present, project
id non-empty and found, PDF extracted — creates the document row and
answers 201, but stores no chunks and invokes only the extractor: the
route never calls `chunkText`, `generateEmbeddings` or the chunk
store, whatever the extracted text is. -/
theorem uploadRoute_skips_chunking (f : FileRec) (pid text : String) (pageCount : Nat)
    (hpid : pid ≠ "") :
    uploadRoute (some f) (some pid) true (.ok (text, pageCount)) =
      .created (DocumentRow.mk pid f.originalname f.path pageCount) [] [Stage.extractor] := by
  unfold uploadRoute
  simp [hpid]

/-- Witness for C1 at a concrete successful upload whose extracted text
is non-empty. -/
theorem uploadRoute_skips_chunking_witness :
    ("p1" : String) ≠ "" ∧ ("Extracted body text.".data.length = 20) ∧
      uploadRoute (some (FileRec.mk "paper.pdf" "/uploads/paper.pdf")) (some "p1") true
          (.ok ("Extracted body text.", 2)) =
        .created (DocumentRow.mk "p1" "paper.pdf" "/uploads/paper.pdf" 2) [] [Stage.extractor] :=
  ⟨by decide, by decide,
    uploadRoute_skips_chunking (FileRec.mk "paper.pdf" "/uploads/paper.pdf") "p1"
      "Extracted body text." 2 (by decide)⟩

/-- C7 (code divergence): the call `generateChatResponse` issues is
constant in its credential — always the OpenAI backend and always the
literal model `gpt-4o-mini` — whereas the dispatch the spec describes
(`specChatDispatch`, the embedding provider's `sk-` prefix heuristic
with a per-request override) selects the Gemini backend and the
overriding model for a non-OpenAI key. -/
theorem generateChatCall_constant_backend_model :
    (∀ (query : String) (chunks : List ChunkWithScore)
      (hist : List ChatMessageRec) (apiKey : String),
      (generateChatCall query chunks hist apiKey).backend = ChatBackend.openai ∧
        (generateChatCall query chunks hist apiKey).model = "gpt-4o-mini") ∧
      specChatDispatch "AIzaSyDemo" (some "gemini-1.5-pro") =
        (ChatBackend.gemini, "gemini-1.5-pro") ∧
      (generateChatCall "q" [] [] "AIzaSyDemo").backend = ChatBackend.openai ∧
      (generateChatCall "q" [] [] "AIzaSyDemo").model = "gpt-4o-mini" ∧
      (("gpt-4o-mini" : String) == "gemini-1.5-pro") = false ∧
      (ChatBackend.openai == ChatBackend.gemini) = false :=
  ⟨fun _ _ _ _ => ⟨rfl, rfl⟩, by decide, rfl, rfl, by decide, by decide⟩

theorem collapseAux_mem (p : Char → Bool) (rep : Char) :
    ∀ (b : Bool) (l : List Char) (c : Char), c ∈ collapseAux p rep b l →
      (c = rep ∧ ∃ d ∈ l, p d = true) ∨ (c ∈ l ∧ p c = false) := by
  intro b l
  induction l generalizing b with
  | nil => intro c h; cases h
  | cons d t ih =>
    intro c h
    unfold collapseAux at h
    by_cases hp : p d = true
    · rw [if_pos hp] at h
      have hrec : c ∈ collapseAux p rep true t ∨ c = rep := by
        cases b with
        | true => exact Or.inl (by simpa using h)
        | false =>
          rcases List.mem_cons.mp (by simpa using h) with hc | hc
          · exact Or.inr hc
          · exact Or.inl hc
      rcases hrec with hrec | hrec
      · rcases ih true c hrec with ⟨he, e, het, hpe⟩ | ⟨hct, hpc⟩
        · exact Or.inl ⟨he, e, List.mem_cons_of_mem _ het, hpe⟩
        · exact Or.inr ⟨List.mem_cons_of_mem _ hct, hpc⟩
      · exact Or.inl ⟨hrec, d, List.mem_cons_self _ _, hp⟩
    · rw [if_neg hp] at h
      rcases List.mem_cons.mp h with hc | hc
      · subst hc
        exact Or.inr ⟨List.mem_cons_self _ _, by revert hp; cases p c <;> simp⟩
      · rcases ih false c hc with ⟨he, e, het, hpe⟩ | ⟨hct, hpc⟩
        · exact Or.inl ⟨he, e, List.mem_cons_of_mem _ het, hpe⟩
        · exact Or.inr ⟨List.mem_cons_of_mem _ hct, hpc⟩

theorem trimList_mem (l : List Char) (c : Char) (h : c ∈ trimList l) : c ∈ l := by
  unfold trimList at h
  rw [List.mem_reverse] at h
  have h1 : c ∈ (l.dropWhile jsIsSpace).reverse :=
    List.Sublist.mem h (List.dropWhile_sublist _)
  rw [List.mem_reverse] at h1
  exact List.Sublist.mem h1 (List.dropWhile_sublist _)

theorem cleanText_no_newline (s : String) : '\n' ∉ cleanText s := by
  intro h
  have h1 := trimList_mem _ _ h
  rcases collapseAux_mem _ _ _ _ _ h1 with ⟨_, d, hd, hpd⟩ | ⟨_, hp⟩
  · have hd' : d = '\n' := by simpa using hpd
    subst hd'
    rcases collapseAux_mem _ _ _ _ _ hd with ⟨he, _⟩ | ⟨_, hp2⟩
    · exact absurd he (by decide)
    · exact absurd hp2 (by decide)
  · exact absurd hp (by decide)

theorem lastIndexOfAux_not_mem (t : Char) (fromIdx : Int) :
    ∀ (l : List Char) (i : Int), t ∉ l → lastIndexOfAux t fromIdx l i = -1 := by
  intro l
  induction l with
  | nil => intro i _; rfl
  | cons c cs ih =>
    intro i h
    have hct : (c == t) = false := by
      have : ¬c = t := fun hh => h (hh ▸ List.mem_cons_self _ _)
      simpa using this
    unfold lastIndexOfAux
    rw [ih (i + 1) (fun hm => h (List.mem_cons_of_mem _ hm))]
    simp [hct]

/-- C8 (code divergence): the first normalization regex `\s+ → ' '`
already consumes every newline, so no newline character survives
`cleanText` — the second replace and the whole paragraph-break search
of the chunker (`lastIndexOf('\n', ...)`, shown here always `-1` over
any normalized text) are dead code, and a window is never cut at a
paragraph break.  On `"a\n\nb"` the normalized text is `"a b"`, not
the `"a\nb"` the spec's collapse-newline-runs description yields. -/
theorem cleanText_erases_newlines :
    (∀ s : String, (cleanText s).filter (fun c => c == '\n') = []) ∧
      (∀ (s : String) (fromIdx : Int), lastIndexOfChar (cleanText s) '\n' fromIdx = -1) ∧
      cleanText "a\n\nb" = ['a', ' ', 'b'] := by
  refine ⟨fun s => ?_, fun s fromIdx => lastIndexOfAux_not_mem _ _ _ 0 (cleanText_no_newline s), by decide⟩
  rw [List.filter_eq_nil_iff]
  intro c hc hbeq
  have : c = '\n' := by simpa using hbeq
  exact cleanText_no_newline s (this ▸ hc)

/-- C2 (code divergence): on a 12-character normalized text with
`maxChunkSize = 10` and `overlap = 3` (parameters inside the claim's
stated domain, `0 ≤ overlap < maxChunkSize / 2`), the loop index of
`chunkText` reaches `9 = length - overlap` and then repeats forever:
the loop never exits within any number of iterations, so the function
never returns.  The same algebra (`currentIndex` stuck at
`length - overlap`) diverges for the default parameters on any
normalized text longer than 1000 characters. -/
theorem chunkText_diverges_on_long_input :
    (cleanText "aaaaaaaaaaaa").length = 12 ∧
      ((0 : Int) < 10 ∧ (0 : Int) ≤ 3 ∧ (2 * 3 : Int) < 10) ∧
      ∀ fuel : Nat, chunkText fuel "aaaaaaaaaaaa" 10 3 = none := by
  refine ⟨by decide, by decide, ?_⟩
  have stuck : ∀ (g : Nat) (acc : List (List Char)),
      chunkTextGo "aaaaaaaaaaaa".data 10 3 g 9 acc = none := by
    intro g
    induction g with
    | zero => intro acc; rfl
    | succ g ih =>
      intro acc
      have hstep : chunkTextGo "aaaaaaaaaaaa".data 10 3 (g + 1) 9 acc =
          chunkTextGo "aaaaaaaaaaaa".data 10 3 g 9 (['a', 'a', 'a'] :: acc) := rfl
      rw [hstep]
      exact ih _
  intro fuel
  match fuel with
  | 0 => rfl
  | 1 => rfl
  | (g + 2) =>
    have h2 : chunkText (g + 2) "aaaaaaaaaaaa" 10 3 =
        (chunkTextGo "aaaaaaaaaaaa".data 10 3 g 9
          [['a', 'a', 'a', 'a', 'a'],
            ['a', 'a', 'a', 'a', 'a', 'a', 'a', 'a', 'a', 'a']]).map (·.map (⟨·⟩)) := rfl
    rw [h2, stuck g]
    rfl

theorem jsLe_trans {x y z : JsNum} (h1 : jsLe x y = true) (h2 : jsLe y z = true) :
    jsLe x z = true := by
  cases x <;> cases y <;> cases z <;> simp_all [jsLe]
  exact le_trans h1 h2

theorem jsLe_of_cmp_ne_pos {x y : JsNum} (hx : x ≠ JsNum.nan) (hy : y ≠ JsNum.nan)
    (h : cmpResultDesc x y ≠ CmpSign.pos) : jsLe y x = true := by
  cases x with
  | nan => exact absurd rfl hx
  | posInf =>
    cases y with
    | nan => exact absurd rfl hy
    | posInf => rfl
    | negInf => rfl
    | num q => rfl
  | negInf =>
    cases y with
    | nan => exact absurd rfl hy
    | posInf => exact absurd rfl h
    | negInf => rfl
    | num q => exact absurd rfl h
  | num qx =>
    cases y with
    | nan => exact absurd rfl hy
    | posInf => exact absurd rfl h
    | negInf => rfl
    | num qy =>
      simp only [cmpResultDesc] at h
      split_ifs at h with h1 h2
      · exact absurd rfl h
      · exact decide_eq_true (le_of_lt h2)
      · exact decide_eq_true (le_of_not_lt h1)

theorem jsLe_of_cmp_pos {x y : JsNum} (h : cmpResultDesc x y = CmpSign.pos) :
    jsLe x y = true ∧ x ≠ JsNum.nan ∧ y ≠ JsNum.nan := by
  cases x with
  | nan => exact absurd h (by simp [cmpResultDesc])
  | posInf =>
    cases y <;> exact absurd h (by simp [cmpResultDesc])
  | negInf =>
    cases y with
    | nan => exact absurd h (by simp [cmpResultDesc])
    | posInf => exact ⟨rfl, by simp, by simp⟩
    | negInf => exact absurd h (by simp [cmpResultDesc])
    | num q => exact ⟨rfl, by simp, by simp⟩
  | num qx =>
    cases y with
    | nan => exact absurd h (by simp [cmpResultDesc])
    | posInf => exact ⟨rfl, by simp, by simp⟩
    | negInf => exact absurd h (by simp [cmpResultDesc])
    | num qy =>
      refine ⟨?_, by simp, by simp⟩
      simp only [cmpResultDesc] at h
      split_ifs at h with h1 h2
      exact decide_eq_true (le_of_lt h1)

theorem pairwise_orderedInsert_no_nan (a : ChunkWithScore) :
    ∀ l : List ChunkWithScore, a.score ≠ JsNum.nan → (∀ x ∈ l, x.score ≠ JsNum.nan) →
      List.Pairwise (fun u v => jsLe v.score u.score = true) l →
      List.Pairwise (fun u v => jsLe v.score u.score = true)
        (List.orderedInsert (fun u v => cmpResultDesc u.score v.score ≠ CmpSign.pos) a l) := by
  intro l
  induction l with
  | nil => intro _ _ _; exact List.pairwise_singleton _ _
  | cons b t ih =>
    intro ha hl hs
    simp only [List.orderedInsert]
    by_cases hr : cmpResultDesc a.score b.score ≠ CmpSign.pos
    · rw [if_pos hr]
      have hab : jsLe b.score a.score = true :=
        jsLe_of_cmp_ne_pos ha (hl b (List.mem_cons_self _ _)) hr
      refine List.Pairwise.cons ?_ hs
      intro x hx
      rcases List.mem_cons.mp hx with hxb | hxt
      · exact hxb ▸ hab
      · exact jsLe_trans (List.rel_of_pairwise_cons hs hxt) hab
    · rw [if_neg hr]
      have hpos : cmpResultDesc a.score b.score = CmpSign.pos := not_not.mp hr
      obtain ⟨hba, _, _⟩ := jsLe_of_cmp_pos hpos
      have htail := ih ha (fun x hx => hl x (List.mem_cons_of_mem _ hx)) hs.of_cons
      refine List.Pairwise.cons ?_ htail
      intro y hy
      rcases (List.mem_orderedInsert _).mp hy with hya | hyt
      · exact hya ▸ hba
      · exact List.rel_of_pairwise_cons hs hyt

theorem pairwise_insertionSort_no_nan :
    ∀ l : List ChunkWithScore, (∀ x ∈ l, x.score ≠ JsNum.nan) →
      List.Pairwise (fun u v => jsLe v.score u.score = true)
        (List.insertionSort (fun u v => cmpResultDesc u.score v.score ≠ CmpSign.pos) l) := by
  intro l
  induction l with
  | nil => intro _; exact List.Pairwise.nil
  | cons a t ih =>
    intro hl
    simp only [List.insertionSort]
    refine pairwise_orderedInsert_no_nan a _ (hl a (List.mem_cons_self _ _)) ?_
      (ih fun x hx => hl x (List.mem_cons_of_mem _ hx))
    intro x hx
    exact hl x (List.mem_cons_of_mem _ (((List.perm_insertionSort _ _).mem_iff).mp hx))

theorem sorted_sortByScoreDesc (l : List ChunkWithScore)
    (hl : ∀ x ∈ l, x.score ≠ JsNum.nan) :
    List.Pairwise (fun u v => jsLe v.score u.score = true) (sortByScoreDesc l) :=
  pairwise_insertionSort_no_nan l hl

theorem keywordSearch_no_nan (chunks : List ChunkRec) (query : String) :
    ∀ x ∈ (chunks.map fun c =>
        ChunkWithScore.mk c.id c.documentId c.content
          (JsNum.num (keywordScore (queryWords query) c.content : ℚ))),
      x.score ≠ JsNum.nan := by
  intro x hx
  obtain ⟨c, _, rfl⟩ := List.mem_map.mp hx
  simp

theorem keywordSearch_len_sorted (chunks : List ChunkRec) (query : String) (topK : Nat) :
    (keywordSearch chunks query topK).length ≤ topK ∧
      List.Pairwise (fun u v => jsLe v.score u.score = true)
        (keywordSearch chunks query topK) := by
  constructor
  · simp only [keywordSearch]
    rw [List.length_take]
    exact min_le_left _ _
  · simp only [keywordSearch]
    exact List.Pairwise.sublist
      (List.Sublist.trans (List.take_sublist _ _) (List.filter_sublist _))
      (sorted_sortByScoreDesc _ (keywordSearch_no_nan chunks query))

theorem keywordSearch_scores (chunks : List ChunkRec) (query : String) (topK : Nat) :
    ∀ r ∈ keywordSearch chunks query topK,
      jsGtZero r.score = true ∧
        r.score = JsNum.num (keywordScore (queryWords query) r.content : ℚ) ∧
        0 < keywordScore (queryWords query) r.content := by
  intro r hr
  simp only [keywordSearch] at hr
  have hr1 := List.Sublist.mem hr (List.take_sublist _ _)
  rw [List.mem_filter] at hr1
  obtain ⟨hr2, hpos⟩ := hr1
  have hr3 := ((List.perm_insertionSort _ _).mem_iff).mp hr2
  obtain ⟨c, _, rfl⟩ := List.mem_map.mp hr3
  refine ⟨hpos, rfl, ?_⟩
  have hq : (0 : ℚ) < (keywordScore (queryWords query) c.content : ℚ) :=
    of_decide_eq_true hpos
  exact_mod_cast hq

/-- Similarity of the query embedding `[1, 0]` with the all-zero stored
embedding `[0, 0]`: both the accumulated dot product and `normB` are
zero, so the division is `0 / 0` and the value is NaN. -/
theorem cosSim_zero_embedding : cosineSimilarity [1, 0] [0, 0] = .ok CosValue.nan := by
  have h := cosAcc_snd_zero (([(1 : ℚ), 0]).zip [0, 0])
    ((0 : ℚ), (0 : ℚ), (0 : ℚ)) (by decide) rfl rfl
  unfold cosineSimilarity
  rw [if_neg (by decide)]
  simp only []
  rw [if_pos (by rw [h.2, mul_zero]), if_pos h.1]

/-- Similarity of the query embedding `[1, 0]` with itself: the
accumulation yields dot 1, normA 1, normB 1 and a finite value. -/
theorem cosSim_aligned_embedding :
    cosineSimilarity [1, 0] [1, 0] = .ok (CosValue.fin 1 1 1) := by
  simp [cosineSimilarity, cosAccStep]

theorem chunkScore_zero_embedding :
    chunkScore (fun _ _ => (1 : ℚ)) [1, 0]
      (ChunkRec.mk "c1" "d1" "zero vector chunk" (EmbStore.vec [0, 0])) = JsNum.nan := by
  simp [chunkScore, parseEmb, cosSim_zero_embedding]

theorem chunkScore_aligned_embedding :
    chunkScore (fun _ _ => (1 : ℚ)) [1, 0]
      (ChunkRec.mk "c2" "d1" "aligned chunk" (EmbStore.vec [1, 0])) = JsNum.num 1 := by
  simp [chunkScore, parseEmb, cosSim_aligned_embedding]

/-- Counterexample to C3 as frozen: in the vector path, a chunk whose
stored embedding is all zeros scores NaN (this file's `cosineSimilarity`
model); the sort comparator `b.score - a.score` is then NaN, which ECMA
SortCompare turns into `+0`, so the chunk keeps its position (for this
two-element array that outcome is normative: both comparator orders
return `+0`, a consistent comparator, and the sort is stable).  The
retriever hence returns `[NaN, 1]` — a score list that is not
non-increasing, since IEEE comparisons with NaN are false. -/
theorem findRelevantChunks_nan_breaks_order :
    findRelevantChunks
        [DocumentRec.mk "d1" "doc.pdf"
          [ChunkRec.mk "c1" "d1" "zero vector chunk" (EmbStore.vec [0, 0]),
            ChunkRec.mk "c2" "d1" "aligned chunk" (EmbStore.vec [1, 0])]]
        "q" 5 (some "sk-k") (.ok [1, 0]) (fun _ _ => 1) =
      .ok [ChunkWithScore.mk "c1" "d1" "zero vector chunk" JsNum.nan,
        ChunkWithScore.mk "c2" "d1" "aligned chunk" (JsNum.num 1)] ∧
      scoresNonIncreasing
        [ChunkWithScore.mk "c1" "d1" "zero vector chunk" JsNum.nan,
          ChunkWithScore.mk "c2" "d1" "aligned chunk" (JsNum.num 1)] = false := by
  constructor
  · simp only [findRelevantChunks]
    split_ifs with h1 h2 h3
    · exact absurd h1 (by decide)
    · exact absurd h2 (by decide)
    · exact absurd h3 (by decide)
    · show Except.ok (List.take 5 (sortByScoreDesc _)) = _
      have hfl : List.filter hasEmbedding
          (([DocumentRec.mk "d1" "doc.pdf"
            [ChunkRec.mk "c1" "d1" "zero vector chunk" (EmbStore.vec [0, 0]),
              ChunkRec.mk "c2" "d1" "aligned chunk" (EmbStore.vec [1, 0])]]).flatMap
            fun x => x.chunks) =
          [ChunkRec.mk "c1" "d1" "zero vector chunk" (EmbStore.vec [0, 0]),
            ChunkRec.mk "c2" "d1" "aligned chunk" (EmbStore.vec [1, 0])] := by decide
      rw [hfl]
      simp only [List.map_cons, List.map_nil]
      rw [chunkScore_zero_embedding, chunkScore_aligned_embedding]
      rfl
  · decide

/-- C3 (amended): whenever `findRelevantChunks` returns, the list has at
most `topK` entries; and its scores are non-increasing provided no
chunk ranked in the vector path scores NaN — keyword-fallback scores
are finite counts and never NaN, so both fallback paths satisfy the
order unconditionally, while a NaN similarity (see the counterexample)
can sit anywhere in the returned order. -/
theorem findRelevantChunks_ranked_amended (docs : List DocumentRec) (query : String)
    (topK : Nat) (apiKey : Option String) (qEmb : List ℚ)
    (sim : List ℚ → List ℚ → ℚ) (l : List ChunkWithScore)
    (h : findRelevantChunks docs query topK apiKey (.ok qEmb) sim = .ok l)
    (hnn : ∀ c ∈ (docs.flatMap fun d => d.chunks).filter hasEmbedding,
      chunkScore sim qEmb c ≠ JsNum.nan) :
    l.length ≤ topK ∧
      List.Pairwise (fun u v => jsLe v.score u.score = true) l := by
  simp only [findRelevantChunks] at h
  split_ifs at h with h0 hkey hemb
  · injection h with h2
    subst h2
    exact ⟨Nat.zero_le _, List.Pairwise.nil⟩
  · injection h with h2
    subst h2
    exact keywordSearch_len_sorted _ _ _
  · injection h with h2
    subst h2
    exact keywordSearch_len_sorted _ _ _
  · injection h with h2
    subst h2
    constructor
    · rw [List.length_take]
      exact min_le_left _ _
    · refine List.Pairwise.sublist (List.take_sublist _ _) ?_
      refine sorted_sortByScoreDesc _ ?_
      intro x hx
      obtain ⟨c, hc, rfl⟩ := List.mem_map.mp hx
      exact hnn c hc

/-- Witness for the amended C3: a keyword-path retrieval over one
document with two chunks returns both, descending by score and within
the bound 5, with no NaN anywhere in scope. -/
theorem findRelevantChunks_ranked_amended_witness :
    ([ChunkWithScore.mk "c1" "d1" "alpha beta gamma" (JsNum.num ((2 : Nat) : ℚ)),
        ChunkWithScore.mk "c2" "d1" "alpha beta" (JsNum.num ((1 : Nat) : ℚ))].length ≤ 5) ∧
      List.Pairwise (fun u v => jsLe v.score u.score = true)
        [ChunkWithScore.mk "c1" "d1" "alpha beta gamma" (JsNum.num ((2 : Nat) : ℚ)),
          ChunkWithScore.mk "c2" "d1" "alpha beta" (JsNum.num ((1 : Nat) : ℚ))] :=
  findRelevantChunks_ranked_amended
    [DocumentRec.mk "d1" "doc.pdf"
      [ChunkRec.mk "c1" "d1" "alpha beta gamma" EmbStore.null,
        ChunkRec.mk "c2" "d1" "alpha beta" EmbStore.null]]
    "alpha gamma" 5 none [] (fun _ _ => 0) _ (by rfl) (by decide)

/-- C6: with no credential, or with no loaded chunk carrying a usable
embedding, the retriever answers exactly the keyword fallback — each
returned entry scored by the count of query words longer than two
characters contained case-insensitively in its content, a positive
finite count, sorted descending, truncated to `topK` — and it returns
normally (no thrown error) whatever the query-embedding oracle would
have done. -/
theorem findRelevantChunks_keyword_fallback (docs : List DocumentRec) (query : String)
    (topK : Nat) (qEmbResult : Except String (List ℚ)) (sim : List ℚ → List ℚ → ℚ)
    (apiKey : Option String)
    (hfb : apiKey = none ∨ (docs.flatMap fun d => d.chunks).filter hasEmbedding = []) :
    findRelevantChunks docs query topK apiKey qEmbResult sim =
        .ok (keywordSearch (docs.flatMap fun d => d.chunks) query topK) ∧
      (∀ r ∈ keywordSearch (docs.flatMap fun d => d.chunks) query topK,
        jsGtZero r.score = true ∧
          r.score = JsNum.num (keywordScore (queryWords query) r.content : ℚ) ∧
          0 < keywordScore (queryWords query) r.content) ∧
      List.Pairwise (fun u v => jsLe v.score u.score = true)
        (keywordSearch (docs.flatMap fun d => d.chunks) query topK) ∧
      (keywordSearch (docs.flatMap fun d => d.chunks) query topK).length ≤ topK := by
  refine ⟨?_, keywordSearch_scores _ _ _, (keywordSearch_len_sorted _ _ _).2,
    (keywordSearch_len_sorted _ _ _).1⟩
  simp only [findRelevantChunks]
  by_cases h0 : docs.length = 0
  · rw [if_pos h0]
    have hd : docs = [] := List.length_eq_zero.mp h0
    subst hd
    simp [keywordSearch, sortByScoreDesc, List.insertionSort]
  · rw [if_neg h0]
    rcases hfb with hk | he
    · subst hk
      have hgd : (none : Option String).getD "" = "" := rfl
      rw [if_pos hgd]
    · by_cases hkey : apiKey.getD "" = ""
      · rw [if_pos hkey]
      · rw [if_neg hkey, if_pos (by rw [he]; rfl)]

/-- Witness for C6 at a one-chunk project with no stored embeddings and
no credential. -/
theorem findRelevantChunks_keyword_fallback_witness :
    (findRelevantChunks [DocumentRec.mk "d1" "a.pdf"
          [ChunkRec.mk "c1" "d1" "hello world" EmbStore.null]] "hello" 3 none
          (.ok []) (fun _ _ => 0) =
        .ok (keywordSearch
          ([DocumentRec.mk "d1" "a.pdf"
            [ChunkRec.mk "c1" "d1" "hello world" EmbStore.null]].flatMap fun d => d.chunks)
          "hello" 3)) ∧
      (∀ r ∈ keywordSearch
          ([DocumentRec.mk "d1" "a.pdf"
            [ChunkRec.mk "c1" "d1" "hello world" EmbStore.null]].flatMap fun d => d.chunks)
          "hello" 3,
        jsGtZero r.score = true ∧
          r.score = JsNum.num (keywordScore (queryWords "hello") r.content : ℚ) ∧
          0 < keywordScore (queryWords "hello") r.content) ∧
      List.Pairwise (fun u v => jsLe v.score u.score = true)
        (keywordSearch
          ([DocumentRec.mk "d1" "a.pdf"
            [ChunkRec.mk "c1" "d1" "hello world" EmbStore.null]].flatMap fun d => d.chunks)
          "hello" 3) ∧
      (keywordSearch
        ([DocumentRec.mk "d1" "a.pdf"
          [ChunkRec.mk "c1" "d1" "hello world" EmbStore.null]].flatMap fun d => d.chunks)
        "hello" 3).length ≤ 3 :=
  findRelevantChunks_keyword_fallback _ "hello" 3 (.ok []) (fun _ _ => 0) none (Or.inl rfl)

theorem get_toNat_eq (l : List ChunkWithScore) (n : Nat)
    (hp : ((n : Int) - 1).toNat < l.length) (hlt : n - 1 < l.length) :
    l.get ⟨((n : Int) - 1).toNat, hp⟩ = l.get ⟨n - 1, hlt⟩ := by
  have h : ((n : Int) - 1).toNat = n - 1 := by omega
  congr 1
  exact Fin.ext h

theorem extractCitationsGo_eq (chunks : List ChunkWithScore)
    (docMap : String → Option String) :
    ∀ (ms : List Nat) (seen : List String),
      extractCitationsGo chunks docMap ms seen =
        (dedupById seen (ms.filterMap fun n =>
          if 1 ≤ n ∧ n ≤ chunks.length then chunks[n - 1]? else none)).map
          (mkCitation docMap) := by
  intro ms
  induction ms with
  | nil => intro seen; rfl
  | cons n ms ih =>
    intro seen
    rw [List.filterMap_cons]
    by_cases hc : 1 ≤ n ∧ n ≤ chunks.length
    · have hci : 0 ≤ (n : Int) - 1 ∧ (n : Int) - 1 < (chunks.length : Int) := by omega
      have hlt : n - 1 < chunks.length := by omega
      rw [if_pos hc, List.getElem?_eq_getElem hlt]
      simp only [extractCitationsGo]
      rw [dif_pos hci, get_toNat_eq chunks n _ hlt]
      by_cases hmem : (chunks.get ⟨n - 1, hlt⟩).id ∈ seen
      · rw [if_pos hmem]
        simp only [dedupById, List.get_eq_getElem] at hmem ⊢
        rw [if_pos hmem]
        exact ih seen
      · rw [if_neg hmem]
        simp only [dedupById, List.get_eq_getElem] at hmem ⊢
        rw [if_neg hmem, List.map_cons]
        rw [ih ((chunks[n - 1]).id :: seen)]
    · have hci : ¬(0 ≤ (n : Int) - 1 ∧ (n : Int) - 1 < (chunks.length : Int)) := by omega
      rw [if_neg hc]
      simp only [extractCitationsGo]
      rw [dif_neg hci]
      exact ih seen

/-- C4: `extractCitations` emits exactly one citation per distinct chunk
referenced by an in-range `[Source N]` marker, mapped 1-indexed to the
retrieved list, in order of first occurrence, ignoring out-of-range
markers — it agrees with the spec-side `citedChunksSpec` on every
answer text and chunk list.  In particular, over 5 retrieved chunks, an
answer citing `[Source 2]` twice and `[Source 7]` once yields exactly
the one citation for chunk 2. -/
theorem extractCitations_one_per_distinct_chunk :
    (∀ (response : String) (chunks : List ChunkWithScore)
      (docMap : String → Option String),
      extractCitations response chunks docMap =
        (citedChunksSpec response chunks).map (mkCitation docMap)) ∧
      extractCitations
          "Use [Source 2] here and [Source 2] again; [Source 7] is out of range."
          [ChunkWithScore.mk "c1" "d1" "alpha text" (JsNum.num 1),
            ChunkWithScore.mk "c2" "d2" "beta text" (JsNum.num 1),
            ChunkWithScore.mk "c3" "d3" "gamma text" (JsNum.num 1),
            ChunkWithScore.mk "c4" "d4" "delta text" (JsNum.num 1),
            ChunkWithScore.mk "c5" "d5" "epsilon text" (JsNum.num 1)] (fun _ => none) =
        [Citation.mk "c2" "d2" "Unknown Document" "beta text"] := by
  constructor
  · intro response chunks docMap
    exact extractCitationsGo_eq chunks docMap (scanSources response.data) []
  · decide

/-- C9: when the request is well-formed, the project exists with a
configured key, and retrieval returns the empty list, the chat route
answers 200 with the canned no-information message, empty citations and
empty sources, and the answer synthesizer is not invoked — the outcome
is the same for every `synth` oracle, including a failing one.  A
project with zero documents is such a case: its retrieval is `.ok []`
whatever the query, key and oracles. -/
theorem chatRoute_empty_retrieval (pid q : String) (proj : ProjectRec)
    (docs : List DocumentRec) (qEmbResult : Except String (List ℚ))
    (sim : List ℚ → List ℚ → ℚ) (synth : Except String (String × List Citation))
    (hp : pid ≠ "") (hq : q ≠ "") (hkey : proj.userApiKey.getD "" ≠ "")
    (hret : findRelevantChunks docs q 20 proj.userApiKey qEmbResult sim = .ok []) :
    chatRoute (some pid) (some q) (some proj) docs qEmbResult sim synth =
        .ok (ChatSuccess.mk cannedNoInfo [] [] false) ∧
      ∀ (q2 : String) (k : Option String) (qe : Except String (List ℚ))
        (sim2 : List ℚ → List ℚ → ℚ),
        findRelevantChunks [] q2 20 k qe sim2 = .ok [] := by
  constructor
  · have hcond : ¬((some pid).getD "" = "" ∨ (some q).getD "" = "") := by
      intro h
      rcases h with h | h
      · exact hp h
      · exact hq h
    simp only [chatRoute]
    rw [if_neg hcond]
    simp only [Option.getD_some]
    rw [if_neg hkey, hret]
    rfl
  · intro q2 k qe sim2
    rfl

/-- Witness for C9: a zero-document project, a present key, and a
synthesizer oracle that would throw if consulted. -/
theorem chatRoute_empty_retrieval_witness :
    (chatRoute (some "p1") (some "hi") (some (ProjectRec.mk "p1" (some "sk-test")))
          [] (.ok []) (fun _ _ => 0) (.error "never invoked") =
        .ok (ChatSuccess.mk cannedNoInfo [] [] false)) ∧
      ∀ (q2 : String) (k : Option String) (qe : Except String (List ℚ))
        (sim2 : List ℚ → List ℚ → ℚ),
        findRelevantChunks [] q2 20 k qe sim2 = .ok [] :=
  chatRoute_empty_retrieval "p1" "hi" (ProjectRec.mk "p1" (some "sk-test")) []
    (.ok []) (fun _ _ => 0) (.error "never invoked")
    (by decide) (by decide) (by decide) (by rfl)

end ScholarStack
